import Mathlib

/-!
# Shallow embedding of the StorageApplication local note store

This file embeds the SQLite-backed note store of `src/App.tsx` — the data
model (`notes(id INTEGER PRIMARY KEY AUTOINCREMENT, title TEXT NOT NULL,
created_at INTEGER NOT NULL)`), the operations `initDb`,
`createOrUpdateNote` (insert and update paths), `deleteNote`,
`reloadNotes` (SELECT over the table), and the client-side `filtered`
memo (trimmed lower-cased substring filter followed by a stable sort on
`created_at`) — and proves the testable properties stated for it.

Strings are modelled as lists of characters (the code units of a JS
string); `String.prototype.trim` becomes `trim`, `toLowerCase` becomes
`lower`, `includes` becomes infix containment. `Date.now()` is passed in
explicitly as the `now` argument of an insert. The SQLite AUTOINCREMENT
sequence is modelled by a `seq` field holding the largest id ever
assigned; a fresh insert uses `seq + 1`, which is exactly SQLite's
behaviour for an AUTOINCREMENT primary key. The retrieval order of
`SELECT id, title, created_at FROM notes;` is the rowid (insertion)
order, modelled by keeping `rows` in insertion order.
-/

namespace NoteStore

/-- Whitespace predicate used by `trim` (JS `String.prototype.trim`
strips Unicode whitespace from both ends). -/
def ws (c : Char) : Bool := c.isWhitespace

/-- JS `s.trim()`: drop whitespace from the front, then from the back. -/
def trim (s : List Char) : List Char :=
  ((s.dropWhile ws).reverse.dropWhile ws).reverse

/-- JS `s.toLowerCase()`, restricted to the per-character lowering
that the titles exercised here use. -/
def lower (s : List Char) : List Char := s.map Char.toLower

/-- JS `hay.includes(needle)`: substring containment. -/
def includes (hay needle : List Char) : Bool := decide (needle <:+: hay)

/-- A row of the `notes` table. -/
structure Note where
  id : Nat
  title : List Char
  created_at : Nat
deriving Repr, DecidableEq

/-- The state of the database file: whether `CREATE TABLE` has run
(`ready`), the rows in rowid order, and the AUTOINCREMENT sequence
(largest id ever assigned, as recorded in `sqlite_sequence`). -/
structure Store where
  ready : Bool
  rows : List Note
  seq : Nat
deriving Repr, DecidableEq

/-- The database file before `initDb` has ever run: no table. -/
def emptyStore : Store := ⟨false, [], 0⟩

/-- Errors surfaced by the storage engine. The code only ever produces
`noSuchTable` (an SQL statement against the absent table); the spec's
error taxonomy additionally names a NotInitialized error, included here
so that statements about it can be made. -/
inductive DbError where
  | noSuchTable
  | notReadyError
deriving Repr, DecidableEq

/-- The `initDb` helper of App.tsx: `CREATE TABLE IF NOT EXISTS notes (...)`.
Creates the (empty) table only when absent; an existing table, its rows
and its sequence are untouched. -/
def initDb (s : Store) : Store :=
  if s.ready then s else ⟨true, [], 0⟩

/-- The insert path of `createOrUpdateNote` (editingId == null):
`const text = draft.trim(); if (!text) return;` then
`INSERT INTO notes (title, created_at) VALUES (?, ?)` with
`[text, Date.now()]`. The empty-trim guard returns before the database
is touched. AUTOINCREMENT assigns `seq + 1` and bumps the sequence. -/
def insertNote (s : Store) (now : Nat) (title : List Char) : Except DbError Store :=
  let text := trim title
  if text = [] then .ok s
  else if s.ready then
    .ok ⟨true, s.rows ++ [⟨s.seq + 1, text, now⟩], s.seq + 1⟩
  else .error .noSuchTable

/-- The update path of `createOrUpdateNote` (editingId != null): the same
empty-trim guard, then `UPDATE notes SET title = ? WHERE id = ?`. Only
the `title` column of matching rows changes; zero matching rows is a
silent success. -/
def updateNote (s : Store) (id : Nat) (title : List Char) : Except DbError Store :=
  let text := trim title
  if text = [] then .ok s
  else if s.ready then
    .ok ⟨true, s.rows.map fun n => if n.id = id then ⟨n.id, text, n.created_at⟩ else n, s.seq⟩
  else .error .noSuchTable

/-- The `deleteNote` action of App.tsx: `DELETE FROM notes WHERE id = ?`. Zero
matching rows is a silent success. -/
def deleteNote (s : Store) (id : Nat) : Except DbError Store :=
  if s.ready then
    .ok ⟨true, s.rows.filter fun n => n.id ≠ id, s.seq⟩
  else .error .noSuchTable

/-- The `reloadNotes` action of App.tsx: `SELECT id, title, created_at FROM notes;`
returning the rows in retrieval (rowid) order. -/
def selectNotes (s : Store) : Except DbError (List Note) :=
  if s.ready then .ok s.rows else .error .noSuchTable

/-- The filter step of the `filtered` memo:
`const q = query.trim().toLowerCase();`
`q ? notes.filter(n => String(n.title).toLowerCase().includes(q)) : notes`. -/
def filterNotes (query : List Char) (notes : List Note) : List Note :=
  let q := lower (trim query)
  if q = [] then notes else notes.filter fun n => includes (lower n.title) q

/-- The comparator of the `filtered` memo, as the `le` of a stable sort:
`sortNewest ? b.created_at - a.created_at : a.created_at - b.created_at`.
A JS stable `sort` with comparator `c` places `a` no later than `b`
exactly when `c(a, b) ≤ 0`. -/
def noteLE (sortNewest : Bool) (a b : Note) : Bool :=
  if sortNewest then b.created_at ≤ a.created_at else a.created_at ≤ b.created_at

/-- The sort step of the `filtered` memo: a stable sort by the
comparator above (`Array.prototype.sort` is required to be stable). -/
def sortNotes (sortNewest : Bool) (notes : List Note) : List Note :=
  notes.mergeSort (noteLE sortNewest)

/-- The List operation `List(filter, order)`: `reloadNotes` followed by the `filtered`
memo (trim+lower substring filter, then the stable sort). -/
def listNotes (s : Store) (query : List Char) (sortNewest : Bool) :
    Except DbError (List Note) :=
  (selectNotes s).map fun rows => sortNotes sortNewest (filterNotes query rows)

/-- A UI data action against the store (the operations reachable from
event handlers once the table exists). -/
inductive Op where
  | insert (now : Nat) (title : List Char)
  | update (id : Nat) (title : List Char)
  | delete (id : Nat)

/-- Run one operation; on a ready store none of them error, and the
result state is taken from the `.ok` branch. -/
def applyOp (s : Store) (op : Op) : Store :=
  match op with
  | .insert now t => match insertNote s now t with | .ok s2 => s2 | .error _ => s
  | .update i t => match updateNote s i t with | .ok s2 => s2 | .error _ => s
  | .delete i => match deleteNote s i with | .ok s2 => s2 | .error _ => s

/-- The store reached from a fresh database by `initDb` followed by a
sequence of data actions (the app's `useEffect` runs `initDb` once
before any action). -/
def run (ops : List Op) : Store := ops.foldl applyOp (initDb emptyStore)

/-! Concrete fixtures from the spec's testable properties. -/

def buyMilk : List Char := ['B', 'u', 'y', ' ', 'm', 'i', 'l', 'k']

def buyEggs : List Char := ['B', 'u', 'y', ' ', 'e', 'g', 'g', 's']

def walkDog : List Char := ['W', 'a', 'l', 'k', ' ', 'd', 'o', 'g']

/-- A ready store holding the three example notes, inserted at
timestamps 10 < 20 < 30. -/
def buyStore : Store :=
  ⟨true, [⟨1, buyMilk, 10⟩, ⟨2, buyEggs, 20⟩, ⟨3, walkDog, 30⟩], 3⟩

/-! ## Helper lemmas -/

/-- Trimming is right-trimming composed with left-trimming. -/
theorem trim_eq_rdropWhile (s : List Char) :
    trim s = List.rdropWhile ws (s.dropWhile ws) := rfl

/-- A trimmed string has no leading whitespace. -/
theorem dropWhile_trim (s : List Char) : (trim s).dropWhile ws = trim s := by
  rw [trim_eq_rdropWhile]
  cases hB : List.rdropWhile ws (s.dropWhile ws) with
  | nil => simp
  | cons b bt =>
    have hpre := List.rdropWhile_prefix ws (s.dropWhile ws)
    rw [hB] at hpre
    obtain ⟨t, ht⟩ := hpre
    have h1 : (s.dropWhile ws).head? = some b := by rw [← ht]; rfl
    have h2 := List.head?_dropWhile_not ws s
    rw [h1] at h2
    rw [List.dropWhile_cons_of_neg (by simp [h2])]

/-- Trimming is idempotent. -/
theorem trim_trim (s : List Char) : trim (trim s) = trim s := by
  rw [trim_eq_rdropWhile (trim s), dropWhile_trim, trim_eq_rdropWhile s,
    List.rdropWhile_idempotent]

/-- The sort comparator is transitive. -/
theorem noteLE_trans (b : Bool) (x y z : Note) :
    noteLE b x y → noteLE b y z → noteLE b x z := by
  cases b <;> simp [noteLE] <;> omega

/-- The sort comparator is total. -/
theorem noteLE_total (b : Bool) (x y : Note) : noteLE b x y || noteLE b y x := by
  cases b <;> simp [noteLE] <;> omega

/-- The effective predicate of the filter step: a note matches when the
trimmed lower-cased query is empty or is a substring of the lower-cased
title. -/
def queryMatches (query : List Char) (n : Note) : Bool :=
  decide (lower (trim query) = []) || includes (lower n.title) (lower (trim query))

/-- The filter step is the pointwise filter by `queryMatches`. -/
theorem filterNotes_eq (query : List Char) (notes : List Note) :
    filterNotes query notes = notes.filter (queryMatches query) := by
  unfold filterNotes queryMatches
  by_cases h : lower (trim query) = []
  · simp [h]
  · simp only [h, if_neg h]
    apply List.filter_congr
    intro n _
    simp [h]

/-- Stability of `mergeSort` restated through `filter`: the subsequence
of elements satisfying a predicate on which the comparator is constantly
true keeps its original relative order. -/
theorem filter_mergeSort_ties {α : Type} (le : α → α → Bool) (p : α → Bool)
    (l : List α)
    (htrans : ∀ a b c, le a b → le b c → le a c)
    (htotal : ∀ a b, le a b || le b a)
    (hp : ∀ a b, p a → p b → le a b) :
    (l.mergeSort le).filter p = l.filter p := by
  have hc : (l.filter p).Pairwise (fun a b => le a b = true) := by
    apply List.pairwise_of_forall_mem_list
    intro a ha b hb
    exact hp a b (List.mem_filter.mp ha).2 (List.mem_filter.mp hb).2
  have hsub : List.Sublist (l.filter p) (l.mergeSort le) :=
    List.sublist_mergeSort htrans htotal hc (List.filter_sublist l)
  have hself : (l.filter p).filter p = l.filter p :=
    List.filter_eq_self.mpr fun a ha => (List.mem_filter.mp ha).2
  have hsub2 : List.Sublist (l.filter p) ((l.mergeSort le).filter p) := by
    have := List.Sublist.filter p hsub
    rwa [hself] at this
  have hlen : ((l.mergeSort le).filter p).length = (l.filter p).length :=
    ((List.mergeSort_perm l le).filter p).length_eq
  exact (hsub2.eq_of_length hlen.symm).symm

/-- Store invariant: the table exists, every row id is bounded by the
AUTOINCREMENT sequence, and row ids are pairwise distinct. -/
def Inv (s : Store) : Prop :=
  s.ready = true ∧ (∀ n ∈ s.rows, n.id ≤ s.seq) ∧
    s.rows.Pairwise (fun a c => a.id ≠ c.id)

/-- The update map used by `updateNote` never changes a row's id. -/
theorem updateRow_id (i : Nat) (t : List Char) (m : Note) :
    ((fun n : Note => if n.id = i then ⟨n.id, trim t, n.created_at⟩ else n) m).id = m.id := by
  by_cases h : m.id = i <;> simp [h]

/-! Step equations for `applyOp` on a ready store. -/

theorem applyOp_insert_eq (s : Store) (now : Nat) (t : List Char)
    (hr : s.ready = true) (ht : trim t ≠ []) :
    applyOp s (.insert now t) =
      ⟨true, s.rows ++ [⟨s.seq + 1, trim t, now⟩], s.seq + 1⟩ := by
  simp [applyOp, insertNote, ht, hr]

theorem applyOp_insert_empty (s : Store) (now : Nat) (t : List Char)
    (ht : trim t = []) : applyOp s (.insert now t) = s := by
  simp [applyOp, insertNote, ht]

theorem applyOp_insert_notready (s : Store) (now : Nat) (t : List Char)
    (hr : s.ready = false) : applyOp s (.insert now t) = s := by
  by_cases ht : trim t = [] <;> simp [applyOp, insertNote, ht, hr]

theorem applyOp_update_eq (s : Store) (i : Nat) (t : List Char)
    (hr : s.ready = true) (ht : trim t ≠ []) :
    applyOp s (.update i t) =
      ⟨true, s.rows.map fun n =>
        if n.id = i then ⟨n.id, trim t, n.created_at⟩ else n, s.seq⟩ := by
  simp [applyOp, updateNote, ht, hr]

theorem applyOp_update_empty (s : Store) (i : Nat) (t : List Char)
    (ht : trim t = []) : applyOp s (.update i t) = s := by
  simp [applyOp, updateNote, ht]

theorem applyOp_update_notready (s : Store) (i : Nat) (t : List Char)
    (hr : s.ready = false) : applyOp s (.update i t) = s := by
  by_cases ht : trim t = [] <;> simp [applyOp, updateNote, ht, hr]

theorem applyOp_delete_eq (s : Store) (i : Nat) (hr : s.ready = true) :
    applyOp s (.delete i) =
      ⟨true, s.rows.filter fun n => n.id ≠ i, s.seq⟩ := by
  simp [applyOp, deleteNote, hr]

theorem applyOp_delete_notready (s : Store) (i : Nat) (hr : s.ready = false) :
    applyOp s (.delete i) = s := by
  simp [applyOp, deleteNote, hr]

theorem inv_applyOp (s : Store) (op : Op) (h : Inv s) : Inv (applyOp s op) := by
  obtain ⟨hr, hle, hpw⟩ := h
  cases op with
  | insert now t =>
    by_cases ht : trim t = []
    · rw [applyOp_insert_empty s now t ht]
      exact ⟨hr, hle, hpw⟩
    · rw [applyOp_insert_eq s now t hr ht]
      refine ⟨rfl, ?_, ?_⟩
      · intro n hn
        rcases List.mem_append.mp hn with hmem | hmem
        · exact Nat.le_trans (hle n hmem) (Nat.le_succ _)
        · simp only [List.mem_singleton] at hmem
          subst hmem
          exact Nat.le_refl _
      · rw [List.pairwise_append]
        refine ⟨hpw, by simp, ?_⟩
        intro a ha b hb
        simp only [List.mem_singleton] at hb
        subst hb
        have := hle a ha
        show a.id ≠ s.seq + 1
        omega
  | update i t =>
    by_cases ht : trim t = []
    · rw [applyOp_update_empty s i t ht]
      exact ⟨hr, hle, hpw⟩
    · rw [applyOp_update_eq s i t hr ht]
      refine ⟨rfl, ?_, ?_⟩
      · intro n hn
        obtain ⟨m, hm, hfm⟩ := List.mem_map.mp hn
        show n.id ≤ s.seq
        rw [← hfm]
        by_cases hid : m.id = i <;> simpa [hid] using hle m hm
      · rw [List.pairwise_map]
        refine hpw.imp_of_mem ?_
        intro a c _ _ hac
        rw [updateRow_id, updateRow_id]
        exact hac
  | delete i =>
    rw [applyOp_delete_eq s i hr]
    refine ⟨rfl, ?_, ?_⟩
    · intro n hn
      exact hle n (List.mem_of_mem_filter hn)
    · exact hpw.sublist (List.filter_sublist _)

theorem inv_foldl (ops : List Op) :
    ∀ s : Store, Inv s → Inv (List.foldl applyOp s ops) := by
  induction ops with
  | nil => intro s h; exact h
  | cons op rest ih => intro s h; exact ih _ (inv_applyOp s op h)

/-- Every state the app can reach satisfies the invariant. -/
theorem inv_run (ops : List Op) : Inv (run ops) := by
  apply inv_foldl
  exact ⟨rfl, by simp [initDb, emptyStore], by simp [initDb, emptyStore]⟩

/-- No operation ever decreases the AUTOINCREMENT sequence. -/
theorem seq_mono_applyOp (s : Store) (op : Op) : s.seq ≤ (applyOp s op).seq := by
  cases op with
  | insert now t =>
    by_cases hr : s.ready = true
    · by_cases ht : trim t = []
      · rw [applyOp_insert_empty s now t ht]
      · rw [applyOp_insert_eq s now t hr ht]
        exact Nat.le_succ _
    · rw [applyOp_insert_notready s now t (by simpa using hr)]
  | update i t =>
    by_cases hr : s.ready = true
    · by_cases ht : trim t = []
      · rw [applyOp_update_empty s i t ht]
      · rw [applyOp_update_eq s i t hr ht]
    · rw [applyOp_update_notready s i t (by simpa using hr)]
  | delete i =>
    by_cases hr : s.ready = true
    · rw [applyOp_delete_eq s i hr]
    · rw [applyOp_delete_notready s i (by simpa using hr)]

theorem seq_mono_foldl (ops : List Op) :
    ∀ s : Store, s.seq ≤ (List.foldl applyOp s ops).seq := by
  induction ops with
  | nil => intro s; exact Nat.le_refl _
  | cons op rest ih =>
    intro s
    exact Nat.le_trans (seq_mono_applyOp s op) (ih (applyOp s op))

/-- Running the whole sequence continues from any prefix's state. -/
theorem run_eq_foldl_take (ops : List Op) (k : Nat) :
    run ops = List.foldl applyOp (run (ops.take k)) (ops.drop k) := by
  unfold run
  conv_lhs => rw [← List.take_append_drop k ops]
  rw [List.foldl_append]

/-- Title invariant: every persisted title is its own trim and non-empty. -/
def TitlesOk (s : Store) : Prop :=
  ∀ n ∈ s.rows, trim n.title = n.title ∧ n.title ≠ []

theorem titlesOk_applyOp (s : Store) (op : Op) (h : TitlesOk s) :
    TitlesOk (applyOp s op) := by
  cases op with
  | insert now t =>
    by_cases ht : trim t = []
    · rw [applyOp_insert_empty s now t ht]; exact h
    · by_cases hr : s.ready = true
      · rw [applyOp_insert_eq s now t hr ht]
        intro n hn
        rcases List.mem_append.mp hn with hmem | hmem
        · exact h n hmem
        · simp only [List.mem_singleton] at hmem
          subst hmem
          exact ⟨trim_trim t, ht⟩
      · rw [applyOp_insert_notready s now t (by simpa using hr)]; exact h
  | update i t =>
    by_cases ht : trim t = []
    · rw [applyOp_update_empty s i t ht]; exact h
    · by_cases hr : s.ready = true
      · rw [applyOp_update_eq s i t hr ht]
        intro n hn
        obtain ⟨m, hm, hfm⟩ := List.mem_map.mp hn
        by_cases hid : m.id = i
        · rw [← hfm]
          simp only [hid, if_pos rfl]
          exact ⟨trim_trim t, ht⟩
        · rw [← hfm]
          simp only [if_neg hid]
          exact h m hm
      · rw [applyOp_update_notready s i t (by simpa using hr)]; exact h
  | delete i =>
    by_cases hr : s.ready = true
    · rw [applyOp_delete_eq s i hr]
      intro n hn
      exact h n (List.mem_of_mem_filter hn)
    · rw [applyOp_delete_notready s i (by simpa using hr)]; exact h

theorem titlesOk_foldl (ops : List Op) :
    ∀ s : Store, TitlesOk s → TitlesOk (List.foldl applyOp s ops) := by
  induction ops with
  | nil => intro s h; exact h
  | cons op rest ih => intro s h; exact ih _ (titlesOk_applyOp s op h)

/-- Every reachable state has trimmed, non-empty titles. -/
theorem titlesOk_run (ops : List Op) : TitlesOk (run ops) := by
  apply titlesOk_foldl
  intro n hn
  simp [initDb, emptyStore] at hn

/-- The empty query filters nothing. -/
theorem filterNotes_nil (notes : List Note) : filterNotes [] notes = notes := rfl

/-- Rows none of which carry the given id are untouched by the update map. -/
theorem update_rows_noop (rows : List Note) (i : Nat) (t : List Char)
    (hne : ∀ n ∈ rows, n.id ≠ i) :
    (rows.map fun n => if n.id = i then ⟨n.id, trim t, n.created_at⟩ else n) = rows := by
  have h : (rows.map fun n => if n.id = i then ⟨n.id, trim t, n.created_at⟩ else n) =
      rows.map id :=
    List.map_congr_left fun n hn => by simp [hne n hn]
  rw [h, List.map_id]

/-- Rows none of which carry the given id are untouched by the delete filter. -/
theorem delete_rows_noop (rows : List Note) (i : Nat)
    (hne : ∀ n ∈ rows, n.id ≠ i) :
    (rows.filter fun n => n.id ≠ i) = rows :=
  List.filter_eq_self.mpr fun n hn => by simp [hne n hn]

/-! ## Claims -/

/-- C5: Insert of a title whose trimmed form is empty — and likewise
Update with such a title — is a silent no-op: no error is surfaced and
the store (its rows, row count and sequence included) is unchanged. The
guard fires before the database is touched, so this holds in every
store state. -/
theorem c5_empty_title_noop (s : Store) (now id : Nat) (t : List Char)
    (h : trim t = []) :
    insertNote s now t = .ok s ∧ updateNote s id t = .ok s := by
  constructor <;> simp [insertNote, updateNote, h]

theorem c5_witness :
    (insertNote ⟨true, [⟨1, ['a'], 0⟩], 1⟩ 7 [] = .ok ⟨true, [⟨1, ['a'], 0⟩], 1⟩ ∧
      updateNote ⟨true, [⟨1, ['a'], 0⟩], 1⟩ 1 [] = .ok ⟨true, [⟨1, ['a'], 0⟩], 1⟩) ∧
    (insertNote ⟨true, [⟨1, ['a'], 0⟩], 1⟩ 7 [' ', ' ', ' '] =
        .ok ⟨true, [⟨1, ['a'], 0⟩], 1⟩ ∧
      updateNote ⟨true, [⟨1, ['a'], 0⟩], 1⟩ 1 [' ', ' ', ' '] =
        .ok ⟨true, [⟨1, ['a'], 0⟩], 1⟩) :=
  ⟨c5_empty_title_noop ⟨true, [⟨1, ['a'], 0⟩], 1⟩ 7 1 [] (by decide),
   c5_empty_title_noop ⟨true, [⟨1, ['a'], 0⟩], 1⟩ 7 1 [' ', ' ', ' '] (by decide)⟩

/-- C2 counterexample: on the store whose table was never created, the
List operation fails with the storage engine's no-such-table error,
which is not the spec's NotInitialized error (modelled as
`DbError.notReadyError`; the code contains no initialization check that
could produce it), and an empty-title Insert does not fail at all — it
returns successfully without touching the database. -/
theorem c2_counterexample :
    selectNotes emptyStore = .error DbError.noSuchTable ∧
    DbError.noSuchTable ≠ DbError.notReadyError ∧
    insertNote emptyStore 0 [' '] = .ok emptyStore :=
  ⟨rfl, by decide, rfl⟩

/-- C2 (amended): every CRUD operation that reaches the storage engine
while the table is absent fails — with the engine's no-such-table
error, not a NotInitialized error (the code has no initialization
check); the empty-trim guard of Insert/Update returns successfully
before reaching the engine. -/
theorem c2_uninitialized_ops_fail (s : Store) (hs : s.ready = false)
    (now id : Nat) (t : List Char) (ht : trim t ≠ []) (q : List Char) (b : Bool) :
    insertNote s now t = .error .noSuchTable ∧
    updateNote s id t = .error .noSuchTable ∧
    deleteNote s id = .error .noSuchTable ∧
    selectNotes s = .error .noSuchTable ∧
    listNotes s q b = .error .noSuchTable := by
  refine ⟨?_, ?_, ?_, ?_, ?_⟩ <;>
    simp [insertNote, updateNote, deleteNote, selectNotes, listNotes,
      Except.map, hs, ht]

theorem c2_witness :
    insertNote emptyStore 5 ['h'] = .error .noSuchTable ∧
    updateNote emptyStore 2 ['h'] = .error .noSuchTable ∧
    deleteNote emptyStore 2 = .error .noSuchTable ∧
    selectNotes emptyStore = .error .noSuchTable ∧
    listNotes emptyStore ['x'] true = .error .noSuchTable :=
  c2_uninitialized_ops_fail emptyStore rfl 5 2 ['h'] (by decide) ['x'] true

/-- C8: Initialize is idempotent: iterating `initDb` any number of
times on an already-initialized store leaves it — its rows and their
count included — exactly unchanged, and on any store `initDb` leaves
the table existing. -/
theorem c8_init_idempotent (s : Store) (h : s.ready = true) (n : Nat) :
    initDb^[n] s = s ∧ ∀ s0 : Store, (initDb s0).ready = true := by
  constructor
  · induction n with
    | zero => rfl
    | succ k ih =>
      rw [Function.iterate_succ_apply, (by simp [initDb, h] : initDb s = s), ih]
  · intro s0
    by_cases h0 : s0.ready = true <;> simp [initDb, h0]

theorem c8_witness :
    initDb^[3] ⟨true, [⟨1, ['a'], 2⟩], 1⟩ = ⟨true, [⟨1, ['a'], 2⟩], 1⟩ ∧
    ∀ s0 : Store, (initDb s0).ready = true :=
  c8_init_idempotent ⟨true, [⟨1, ['a'], 2⟩], 1⟩ rfl 3

/-- C6: Update with an existing id and a trimmed-non-empty title mutates
only the title of the matching row: that row keeps its id and
created_at exactly, and every other row is unchanged (position by
position, so the retrieval order is preserved as well); the sequence is
untouched. -/
theorem c6_update_frame (s : Store) (hr : s.ready = true) (i : Nat)
    (hmem : i ∈ s.rows.map Note.id) (t : List Char) (ht : trim t ≠ []) :
    ∃ s2, updateNote s i t = .ok s2 ∧ s2.seq = s.seq ∧
      s2.rows.length = s.rows.length ∧
      ∀ (k : Nat) (hk : k < s.rows.length) (hk2 : k < s2.rows.length),
        ((s.rows.get ⟨k, hk⟩).id = i →
          s2.rows.get ⟨k, hk2⟩ =
            ⟨(s.rows.get ⟨k, hk⟩).id, trim t, (s.rows.get ⟨k, hk⟩).created_at⟩) ∧
        ((s.rows.get ⟨k, hk⟩).id ≠ i →
          s2.rows.get ⟨k, hk2⟩ = s.rows.get ⟨k, hk⟩) := by
  refine ⟨⟨true, s.rows.map fun n =>
      if n.id = i then ⟨n.id, trim t, n.created_at⟩ else n, s.seq⟩,
    by simp [updateNote, ht, hr], rfl, by simp, ?_⟩
  intro k hk hk2
  simp only [List.get_eq_getElem, List.getElem_map]
  constructor
  · intro hid
    simp [hid]
  · intro hid
    simp [hid]

theorem c6_witness :
    ∃ s2, updateNote ⟨true, [⟨1, ['a'], 2⟩, ⟨2, ['b'], 3⟩], 2⟩ 1 [' ', 'z'] = .ok s2 ∧
      s2.seq = (⟨true, [⟨1, ['a'], 2⟩, ⟨2, ['b'], 3⟩], 2⟩ : Store).seq ∧
      s2.rows.length = (⟨true, [⟨1, ['a'], 2⟩, ⟨2, ['b'], 3⟩], 2⟩ : Store).rows.length ∧
      ∀ (k : Nat)
        (hk : k < (⟨true, [⟨1, ['a'], 2⟩, ⟨2, ['b'], 3⟩], 2⟩ : Store).rows.length)
        (hk2 : k < s2.rows.length),
        (((⟨true, [⟨1, ['a'], 2⟩, ⟨2, ['b'], 3⟩], 2⟩ : Store).rows.get ⟨k, hk⟩).id = 1 →
          s2.rows.get ⟨k, hk2⟩ =
            ⟨((⟨true, [⟨1, ['a'], 2⟩, ⟨2, ['b'], 3⟩], 2⟩ : Store).rows.get ⟨k, hk⟩).id,
              trim [' ', 'z'],
              ((⟨true, [⟨1, ['a'], 2⟩, ⟨2, ['b'], 3⟩], 2⟩ : Store).rows.get ⟨k, hk⟩).created_at⟩) ∧
        (((⟨true, [⟨1, ['a'], 2⟩, ⟨2, ['b'], 3⟩], 2⟩ : Store).rows.get ⟨k, hk⟩).id ≠ 1 →
          s2.rows.get ⟨k, hk2⟩ =
            (⟨true, [⟨1, ['a'], 2⟩, ⟨2, ['b'], 3⟩], 2⟩ : Store).rows.get ⟨k, hk⟩) :=
  c6_update_frame ⟨true, [⟨1, ['a'], 2⟩, ⟨2, ['b'], 3⟩], 2⟩ rfl 1 (by decide)
    [' ', 'z'] (by decide)

/-- C7: Update and Delete with an id not present in the store succeed
silently and leave the store unchanged; and after any Delete(id), no
List result ever contains a note with that id, and repeating Delete(id)
or calling Update(id, ...) leaves the deleted-state store unchanged
(the row is not resurrected). -/
theorem c7_missing_id_silent (s : Store) (hr : s.ready = true) (i : Nat)
    (t : List Char) :
    (i ∉ s.rows.map Note.id →
      updateNote s i t = .ok s ∧ deleteNote s i = .ok s) ∧
    (∀ s2, deleteNote s i = .ok s2 →
      (∀ q b out, listNotes s2 q b = .ok out → ∀ n ∈ out, n.id ≠ i) ∧
      deleteNote s2 i = .ok s2 ∧
      updateNote s2 i t = .ok s2) := by
  obtain ⟨sr, rows, seq⟩ := s
  simp only [Store.ready] at hr
  subst hr
  constructor
  · intro habs
    have hne : ∀ n ∈ rows, n.id ≠ i := by
      intro n hn hcontra
      exact habs (List.mem_map.mpr ⟨n, hn, hcontra⟩)
    constructor
    · by_cases ht : trim t = []
      · simp [updateNote, ht]
      · simp [updateNote, ht, update_rows_noop rows i t hne]
    · simp [deleteNote]
      exact fun a ha => hne a ha
  · intro s2 hdel
    simp only [deleteNote, if_true, Except.ok.injEq] at hdel
    subst hdel
    have hne : ∀ n ∈ rows.filter (fun n => n.id ≠ i), n.id ≠ i := by
      intro n hn
      simpa using (List.mem_filter.mp hn).2
    refine ⟨?_, ?_, ?_⟩
    · intro q b out hout n hn
      simp only [listNotes, selectNotes, if_true, Except.map, Except.ok.injEq] at hout
      subst hout
      have hmem : n ∈ filterNotes q (rows.filter fun n => n.id ≠ i) :=
        List.mem_mergeSort.mp hn
      rw [filterNotes_eq] at hmem
      exact hne n (List.mem_filter.mp hmem).1
    · simp [deleteNote, delete_rows_noop _ i hne]
    · by_cases ht : trim t = []
      · simp [updateNote, ht]
      · simp [updateNote, ht]
        exact update_rows_noop _ i t fun n hn => by
          simpa using (List.mem_filter.mp hn).2

theorem c7_witness :
    ((5 : Nat) ∉ (⟨true, [⟨1, ['a'], 2⟩], 1⟩ : Store).rows.map Note.id →
      updateNote ⟨true, [⟨1, ['a'], 2⟩], 1⟩ 5 ['z'] = .ok ⟨true, [⟨1, ['a'], 2⟩], 1⟩ ∧
      deleteNote ⟨true, [⟨1, ['a'], 2⟩], 1⟩ 5 = .ok ⟨true, [⟨1, ['a'], 2⟩], 1⟩) ∧
    (∀ s2, deleteNote ⟨true, [⟨1, ['a'], 2⟩], 1⟩ 5 = .ok s2 →
      (∀ q b out, listNotes s2 q b = .ok out → ∀ n ∈ out, n.id ≠ 5) ∧
      deleteNote s2 5 = .ok s2 ∧
      updateNote s2 5 ['z'] = .ok s2) :=
  c7_missing_id_silent ⟨true, [⟨1, ['a'], 2⟩], 1⟩ rfl 5 ['z']

/-- C1 counterexample: for the title " hi " (whose trimmed form "hi" is
non-empty), Insert on a ready store followed by List yields exactly one
new note — but its title is the trimmed "hi", not the argument " hi ",
so the claim's "whose title is t" fails. -/
theorem c1_counterexample :
    trim [' ', 'h', 'i', ' '] ≠ [] ∧
    insertNote ⟨true, [], 0⟩ 5 [' ', 'h', 'i', ' '] =
      .ok ⟨true, [⟨1, ['h', 'i'], 5⟩], 1⟩ ∧
    listNotes ⟨true, [⟨1, ['h', 'i'], 5⟩], 1⟩ [] true = .ok [⟨1, ['h', 'i'], 5⟩] ∧
    (⟨1, ['h', 'i'], 5⟩ : Note).title ≠ [' ', 'h', 'i', ' '] := by
  refine ⟨by decide, rfl, ?_, by decide⟩
  simp [listNotes, selectNotes, filterNotes_nil, sortNotes, Except.map]

/-- C1 (amended): for every title t with non-empty trimmed form,
Insert(t) on a ready store followed by List() (empty filter) yields a
sequence containing exactly one new note, whose title is the trimmed
form of t, whose id is freshly assigned and distinct from every id
already in the store, and whose created_at is the insertion clock
value. -/
theorem c1_insert_roundtrip (s : Store) (hr : s.ready = true)
    (hids : ∀ n ∈ s.rows, n.id ≤ s.seq) (now : Nat) (t : List Char)
    (ht : trim t ≠ []) :
    s.seq + 1 ∉ s.rows.map Note.id ∧
    ∃ s2, insertNote s now t = .ok s2 ∧
      ∀ b out, listNotes s2 [] b = .ok out →
        out.countP (fun n => decide (n.id = s.seq + 1)) = 1 ∧
        ∀ n ∈ out, n.id = s.seq + 1 → n.title = trim t ∧ n.created_at = now := by
  constructor
  · intro hmem
    obtain ⟨n, hn, hid⟩ := List.mem_map.mp hmem
    have := hids n hn
    omega
  refine ⟨⟨true, s.rows ++ [⟨s.seq + 1, trim t, now⟩], s.seq + 1⟩,
    by simp [insertNote, ht, hr], ?_⟩
  intro b out hout
  simp only [listNotes, selectNotes, if_true, Except.map, Except.ok.injEq] at hout
  rw [filterNotes_nil] at hout
  subst hout
  simp only [sortNotes]
  constructor
  · rw [((List.mergeSort_perm _ (noteLE b)).countP_eq _)]
    rw [List.countP_append]
    have h0 : (s.rows.countP fun n => decide (n.id = s.seq + 1)) = 0 := by
      rw [List.countP_eq_zero]
      intro n hn
      have := hids n hn
      simp only [decide_eq_true_eq]
      omega
    simp [h0]
  · intro n hn hid
    have hmem : n ∈ s.rows ++ [⟨s.seq + 1, trim t, now⟩] := List.mem_mergeSort.mp hn
    rcases List.mem_append.mp hmem with hmem | hmem
    · have := hids n hmem
      omega
    · simp only [List.mem_singleton] at hmem
      subst hmem
      exact ⟨rfl, rfl⟩

theorem c1_witness :
    ((⟨true, [⟨1, ['a'], 0⟩], 1⟩ : Store).seq + 1 ∉
      (⟨true, [⟨1, ['a'], 0⟩], 1⟩ : Store).rows.map Note.id) ∧
    ∃ s2, insertNote ⟨true, [⟨1, ['a'], 0⟩], 1⟩ 7 [' ', 'h', 'i'] = .ok s2 ∧
      ∀ b out, listNotes s2 [] b = .ok out →
        out.countP (fun n => decide (n.id = (⟨true, [⟨1, ['a'], 0⟩], 1⟩ : Store).seq + 1)) = 1 ∧
        ∀ n ∈ out, n.id = (⟨true, [⟨1, ['a'], 0⟩], 1⟩ : Store).seq + 1 →
          n.title = trim [' ', 'h', 'i'] ∧ n.created_at = 7 :=
  c1_insert_roundtrip ⟨true, [⟨1, ['a'], 0⟩], 1⟩ rfl (by decide) 7 [' ', 'h', 'i']
    (by decide)

/-- C3 counterexample: the code trims the filter string before matching.
For the filter " buy" (leading space) on the three example notes, the
claim demands exactly the notes whose title contains " buy"
case-insensitively — neither "Buy milk" nor "Buy eggs" does — yet the
code returns both of them. -/
theorem c3_counterexample :
    listNotes buyStore [' ', 'b', 'u', 'y'] false =
      .ok [⟨1, buyMilk, 10⟩, ⟨2, buyEggs, 20⟩] ∧
    includes (lower buyMilk) (lower [' ', 'b', 'u', 'y']) = false ∧
    includes (lower buyEggs) (lower [' ', 'b', 'u', 'y']) = false := by
  refine ⟨?_, by decide, by decide⟩
  have hf : filterNotes [' ', 'b', 'u', 'y'] buyStore.rows =
      [⟨1, buyMilk, 10⟩, ⟨2, buyEggs, 20⟩] := by decide
  have h1 : listNotes buyStore [' ', 'b', 'u', 'y'] false =
      .ok (sortNotes false (filterNotes [' ', 'b', 'u', 'y'] buyStore.rows)) := rfl
  rw [h1, hf]
  have h2 : sortNotes false [(⟨1, buyMilk, 10⟩ : Note), ⟨2, buyEggs, 20⟩] =
      [⟨1, buyMilk, 10⟩, ⟨2, buyEggs, 20⟩] := by
    simp only [sortNotes]
    exact List.mergeSort_of_sorted (by decide)
  rw [h2]

/-- C3 (amended): List(f, order) returns exactly those stored notes
whose lower-cased title contains the lower-cased TRIMMED filter as a
substring, all of them when the trimmed filter is empty — as a
permutation dictated by the requested sort, and with membership
characterized note by note. -/
theorem c3_filter_trimmed (s : Store) (hr : s.ready = true) (q : List Char)
    (b : Bool) :
    ∃ out, listNotes s q b = .ok out ∧
      out.Perm (s.rows.filter (queryMatches q)) ∧
      ∀ n, n ∈ out ↔ n ∈ s.rows ∧ queryMatches q n = true := by
  refine ⟨sortNotes b (filterNotes q s.rows), by simp [listNotes, selectNotes, hr, Except.map], ?_, ?_⟩
  · rw [filterNotes_eq]
    exact List.mergeSort_perm _ _
  · intro n
    rw [show (n ∈ sortNotes b (filterNotes q s.rows)) ↔
        n ∈ filterNotes q s.rows from List.mem_mergeSort]
    rw [filterNotes_eq]
    exact List.mem_filter

theorem c3_witness :
    ∃ out, listNotes buyStore ['b', 'u', 'y'] true = .ok out ∧
      out.Perm (buyStore.rows.filter (queryMatches ['b', 'u', 'y'])) ∧
      ∀ n, n ∈ out ↔ n ∈ buyStore.rows ∧ queryMatches ['b', 'u', 'y'] n = true :=
  c3_filter_trimmed buyStore rfl ['b', 'u', 'y'] true

/-- C4: List returns the matching notes sorted by created_at —
descending for newest-first, ascending for oldest-first — as a
permutation of the filtered snapshot, and ties between equal created_at
values keep the original retrieval order (the notes with any fixed
timestamp appear in exactly their original relative order). -/
theorem c4_sort_order (s : Store) (hr : s.ready = true) (q : List Char)
    (b : Bool) :
    ∃ out, listNotes s q b = .ok out ∧
      (b = true → out.Pairwise fun x y => y.created_at ≤ x.created_at) ∧
      (b = false → out.Pairwise fun x y => x.created_at ≤ y.created_at) ∧
      out.Perm (filterNotes q s.rows) ∧
      ∀ ts, out.filter (fun n => decide (n.created_at = ts)) =
        (filterNotes q s.rows).filter fun n => decide (n.created_at = ts) := by
  refine ⟨sortNotes b (filterNotes q s.rows),
    by simp [listNotes, selectNotes, hr, Except.map], ?_, ?_, ?_, ?_⟩
  · intro hb
    subst hb
    have hs := List.sorted_mergeSort (noteLE_trans true) (noteLE_total true)
      (filterNotes q s.rows)
    refine hs.imp ?_
    intro x y hxy
    simpa [noteLE] using hxy
  · intro hb
    subst hb
    have hs := List.sorted_mergeSort (noteLE_trans false) (noteLE_total false)
      (filterNotes q s.rows)
    refine hs.imp ?_
    intro x y hxy
    simpa [noteLE] using hxy
  · simp only [sortNotes]
    exact List.mergeSort_perm _ _
  · intro ts
    simp only [sortNotes]
    apply filter_mergeSort_ties (noteLE b) _ (filterNotes q s.rows)
      (noteLE_trans b) (noteLE_total b)
    intro x y hx hy
    simp only [decide_eq_true_eq] at hx hy
    cases b <;> simp [noteLE, hx, hy]

theorem c4_witness :
    listNotes buyStore [] true =
      .ok [⟨3, walkDog, 30⟩, ⟨2, buyEggs, 20⟩, ⟨1, buyMilk, 10⟩] ∧
    listNotes buyStore [] false =
      .ok [⟨1, buyMilk, 10⟩, ⟨2, buyEggs, 20⟩, ⟨3, walkDog, 30⟩] ∧
    ∃ out, listNotes buyStore [] true = .ok out ∧
      (true = true → out.Pairwise fun x y => y.created_at ≤ x.created_at) ∧
      (true = false → out.Pairwise fun x y => x.created_at ≤ y.created_at) ∧
      out.Perm (filterNotes [] buyStore.rows) ∧
      ∀ ts, out.filter (fun n => decide (n.created_at = ts)) =
        (filterNotes [] buyStore.rows).filter fun n => decide (n.created_at = ts) := by
  refine ⟨?_, ?_, c4_sort_order buyStore rfl [] true⟩
  · have h1 : listNotes buyStore [] true = .ok (sortNotes true buyStore.rows) := rfl
    rw [h1]
    have h2 : sortNotes true buyStore.rows =
        [⟨3, walkDog, 30⟩, ⟨2, buyEggs, 20⟩, ⟨1, buyMilk, 10⟩] := by
      simp [sortNotes, buyStore, List.mergeSort, List.splitInTwo,
        List.splitAt_eq, List.merge, noteLE]
    rw [h2]
  · have h1 : listNotes buyStore [] false = .ok (sortNotes false buyStore.rows) := rfl
    rw [h1]
    have h2 : sortNotes false buyStore.rows = buyStore.rows := by
      simp only [sortNotes]
      exact List.mergeSort_of_sorted (by decide)
    rw [h2]
    rfl

/-- C9: in every store state reachable by a sequence of data actions,
row ids are pairwise distinct; a further Insert assigns the
store-generated id seq + 1, which exceeds every id held by any state
along the way (so ids are never reused, not even those removed by an
earlier Delete). -/
theorem c9_ids_unique (ops : List Op) :
    (run ops).rows.Pairwise (fun a c => a.id ≠ c.id) ∧
    (∀ k, ∀ n ∈ (run (ops.take k)).rows, n.id ≤ (run ops).seq) ∧
    (∀ now t, trim t ≠ [] →
      insertNote (run ops) now t =
        .ok ⟨true, (run ops).rows ++ [⟨(run ops).seq + 1, trim t, now⟩],
          (run ops).seq + 1⟩ ∧
      ∀ k, ∀ n ∈ (run (ops.take k)).rows, n.id < (run ops).seq + 1) := by
  obtain ⟨hr, hle, hpw⟩ := inv_run ops
  have hpre : ∀ k, ∀ n ∈ (run (ops.take k)).rows, n.id ≤ (run ops).seq := by
    intro k n hn
    obtain ⟨hr2, hle2, hpw2⟩ := inv_run (ops.take k)
    have h1 : n.id ≤ (run (ops.take k)).seq := hle2 n hn
    have h2 : (run (ops.take k)).seq ≤ (run ops).seq := by
      rw [run_eq_foldl_take ops k]
      exact seq_mono_foldl _ _
    omega
  refine ⟨hpw, hpre, ?_⟩
  intro now t ht
  refine ⟨by simp [insertNote, ht, hr], ?_⟩
  intro k n hn
  have := hpre k n hn
  omega

theorem c9_witness :
    (run [Op.insert 5 ['h', 'i']]).rows.Pairwise (fun a c => a.id ≠ c.id) ∧
    insertNote (run [Op.insert 5 ['h', 'i']]) 7 ['b'] =
      .ok ⟨true, (run [Op.insert 5 ['h', 'i']]).rows ++
          [⟨(run [Op.insert 5 ['h', 'i']]).seq + 1, trim ['b'], 7⟩],
        (run [Op.insert 5 ['h', 'i']]).seq + 1⟩ :=
  ⟨(c9_ids_unique [Op.insert 5 ['h', 'i']]).1,
   ((c9_ids_unique [Op.insert 5 ['h', 'i']]).2.2 7 ['b'] (by decide)).1⟩

/-- C10: the store persists the trimmed title, not the raw input: a
successful Insert appends a note whose title is the trimmed argument,
an Update stores the trimmed argument as the new title, and in every
reachable store state every persisted title is non-empty and equal to
its own trim. -/
theorem c10_trimmed_titles (ops : List Op) :
    (∀ n ∈ (run ops).rows, trim n.title = n.title ∧ n.title ≠ []) ∧
    (∀ now t, trim t ≠ [] →
      ∃ s2, insertNote (run ops) now t = .ok s2 ∧
        s2.rows.getLast? = some ⟨(run ops).seq + 1, trim t, now⟩) ∧
    (∀ i t s2, trim t ≠ [] → updateNote (run ops) i t = .ok s2 →
      ∀ n ∈ s2.rows, n.id = i → n.title = trim t) := by
  obtain ⟨hr, hle, hpw⟩ := inv_run ops
  refine ⟨titlesOk_run ops, ?_, ?_⟩
  · intro now t ht
    refine ⟨⟨true, (run ops).rows ++ [⟨(run ops).seq + 1, trim t, now⟩],
        (run ops).seq + 1⟩, by simp [insertNote, ht, hr], ?_⟩
    simp
  · intro i t s2 ht hupd
    simp [updateNote, ht, hr] at hupd
    subst hupd
    intro n hn hid
    obtain ⟨m, hm, hfm⟩ := List.mem_map.mp hn
    by_cases hmid : m.id = i
    · rw [← hfm]
      simp [hmid]
    · rw [← hfm] at hid
      simp only [if_neg hmid] at hid
      exact absurd hid hmid

theorem c10_witness :
    ∃ s2, insertNote (run []) 7 [' ', 'h', 'i', ' '] = .ok s2 ∧
      s2.rows.getLast? = some ⟨(run []).seq + 1, trim [' ', 'h', 'i', ' '], 7⟩ :=
  (c10_trimmed_titles []).2.1 7 [' ', 'h', 'i', ' '] (by decide)

end NoteStore
